import Mathlib

/-!
Verification of the `trace` terminal coding assistant (Go sources under
`pkg/ui` and `pkg/agent`) against its natural-language specification.

The development shallowly embeds the parts of the program the claims are
about:
* the bounded agentic tool-call loop `InvokeAI` (pkg/ui/commands.go),
* the process runner `RunProcessCmd` (pkg/ui/commands.go),
* the Bubble Tea `Update` state machine (pkg/ui/update.go), including
  file-tag resolution `resolveFileTags` and the autocomplete recompute.

External collaborators (the OpenAI client, `encoding/json` unmarshalling,
the tool registry's actual I/O, and the `bubbles` textarea) are modelled as
oracle parameters: the loop's behaviour is a function of the sequence of
model replies, of a pair of argument parsers, and of a synchronous tool
executor.  Machine integers that matter (the autocomplete index, a Go
`int`) are embedded as `Int`.
-/

/-! ## Go string helpers

Character-list models of the `strings` standard-library functions the
sources use (`strings.Fields`, `strings.HasPrefix`, `strings.TrimPrefix`,
`strings.Contains`, `strings.Join`). -/

/-- `listIsPrefix pre l` decides whether `pre` is a prefix of `l`. -/
def listIsPrefix : List Char → List Char → Bool
  | [], _ => true
  | _ :: _, [] => false
  | a :: as, b :: bs => a = b && listIsPrefix as bs

/-- `containsSub hay needle` decides whether `needle` occurs contiguously in
`hay`; models `strings.Contains` on the underlying characters. -/
def containsSub : List Char → List Char → Bool
  | [], needle => needle.isEmpty
  | h :: t, needle => listIsPrefix needle (h :: t) || containsSub t needle

/-- Model of Go `strings.HasPrefix`. -/
def goHasPrefix (s pre : String) : Bool := listIsPrefix pre.toList s.toList

/-- Model of Go `strings.TrimPrefix`. -/
def goTrimPrefix (s pre : String) : String :=
  if goHasPrefix s pre then String.mk (s.toList.drop pre.toList.length) else s

/-- Model of Go `strings.Contains`. -/
def goContains (s sub : String) : Bool := containsSub s.toList sub.toList

/-- Splits a character list around runs of whitespace, dropping empty
fields; the worker behind `goFields`. -/
def fieldsAux : List Char → List Char → List (List Char)
  | [], [] => []
  | [], acc => [acc.reverse]
  | c :: rest, acc =>
    if c.isWhitespace then
      (if acc.isEmpty then fieldsAux rest [] else acc.reverse :: fieldsAux rest [])
    else fieldsAux rest (c :: acc)

/-- Model of Go `strings.Fields`: the whitespace-separated non-empty tokens
of `s`, in order. -/
def goFields (s : String) : List String := (fieldsAux s.toList []).map String.mk

/-- Model of Go `strings.Join`. -/
def goJoin (xs : List String) (sep : String) : String := String.intercalate sep xs

/-! ## Conversation data model (go-openai message values) -/

/-- Message roles of `openai.ChatCompletionMessage`. -/
inductive Role
  | system
  | user
  | assistant
  | tool
deriving DecidableEq, Repr

/-- A model-emitted tool call: `openai.ToolCall` restricted to the fields
the program reads (`ID`, `Function.Name`, `Function.Arguments`). -/
structure ToolCall where
  id : String
  name : String
  arguments : String
deriving DecidableEq, Repr

/-- `openai.ChatCompletionMessage` restricted to the fields the program
reads and writes. -/
structure ChatMessage where
  role : Role
  content : String
  toolCalls : List ToolCall := []
  toolCallID : String := ""
deriving DecidableEq, Repr

/-- The message of one completion choice (`choice.Message`): final content
plus the requested tool calls. -/
structure ChoiceMsg where
  content : String
  toolCalls : List ToolCall
deriving DecidableEq, Repr

/-- One outcome of `m.Client.CreateChatCompletion`: a transport/API error,
or a (possibly empty) choice list. -/
inductive ApiResponse
  | apiError (e : String)
  | choices (cs : List ChoiceMsg)
deriving DecidableEq, Repr

/-- Parsed `run_command` arguments (`{command, args}`). -/
structure RunArgs where
  command : String
  args : List String
deriving DecidableEq, Repr

/-- Parsed `manage_window` arguments (`{action, target}`). -/
structure WinArgs where
  action : String
  target : String
deriving DecidableEq, Repr

/-- Oracles for the agent loop's external calls: the two
`json.Unmarshal` argument parsers (`none` = unmarshal error) and the
synchronous registry `agent.ExecuteToolByName` (`Except.error` = the tool
returned an error). -/
structure Env where
  parseRunCommand : String → Option RunArgs
  parseManageWindow : String → Option WinArgs
  execTool : String → String → Except String String

/-- The `tea.Msg` returned by `InvokeAI`: an error, the final response
(`AiResponseMsg`), or one of the two out-of-band suspension requests
(`RunCommandMsg` / `WindowControlMsg`), each carrying the history
accumulated so far. -/
inductive InvokeResult
  | errMsg (e : String)
  | aiResponse (content : String) (history : List ChatMessage)
  | runCommandMsg (command : String) (args : List String) (toolCallID : String)
      (history : List ChatMessage)
  | windowControlMsg (action : String) (target : String) (toolCallID : String)
      (history : List ChatMessage)
deriving DecidableEq, Repr

/-- `true` exactly on the `aiResponse` (FinalResponse) constructor. -/
def InvokeResult.isFinalResponse : InvokeResult → Bool
  | .aiResponse _ _ => true
  | _ => false

/-- The history carried by a suspension request, `none` on the other
constructors. -/
def InvokeResult.suspendedHistory : InvokeResult → Option (List ChatMessage)
  | .runCommandMsg _ _ _ h => some h
  | .windowControlMsg _ _ _ h => some h
  | _ => none

/-! ## Agent loop (`InvokeAI`, pkg/ui/commands.go lines 104–216) -/

/-- The tool-result message the loop synthesizes for a synchronous call:
the tool's return text on success, `"Error executing tool: …"` on error
(commands.go lines 176–191). -/
def toolResultMsg (env : Env) (tc : ToolCall) : ChatMessage :=
  { role := .tool
    content :=
      match env.execTool tc.name tc.arguments with
      | .ok r => r
      | .error e => "Error executing tool: " ++ e
    toolCallID := tc.id }

/-- The assistant message appended when the reply contains tool calls
(content plus the calls, commands.go lines 131–137). -/
def assistantMsg (c : ChoiceMsg) : ChatMessage :=
  { role := .assistant, content := c.content, toolCalls := c.toolCalls }

/-- The final assistant message appended on a zero-tool-call reply
(commands.go lines 202–206). -/
def finalAssistantMsg (content : String) : ChatMessage :=
  { role := .assistant, content := content }

/-- The inner `for _, toolCall := range choice.Message.ToolCalls` loop
(commands.go lines 140–192): processes calls in order; a `run_command` or
`manage_window` call whose arguments unmarshal suspends immediately
(`Sum.inl`), returning the messages accumulated so far; every other call —
including an out-of-band-named call whose arguments fail to parse — falls
through to the synchronous registry and appends a tool-result message.
`Sum.inr` returns the extended message list when no call suspended. -/
def processCalls (env : Env) : List ToolCall → List ChatMessage →
    InvokeResult ⊕ List ChatMessage
  | [], messages => .inr messages
  | tc :: rest, messages =>
    if tc.name = "run_command" then
      match env.parseRunCommand tc.arguments with
      | some a => .inl (.runCommandMsg a.command a.args tc.id messages)
      | none => processCalls env rest (messages ++ [toolResultMsg env tc])
    else if tc.name = "manage_window" then
      match env.parseManageWindow tc.arguments with
      | some a => .inl (.windowControlMsg a.action a.target tc.id messages)
      | none => processCalls env rest (messages ++ [toolResultMsg env tc])
    else
      processCalls env rest (messages ++ [toolResultMsg env tc])

/-- `true` when the loop will suspend on this call: an out-of-band name
(`run_command` / `manage_window`) whose argument payload unmarshals. -/
def isOutOfBand (env : Env) (tc : ToolCall) : Bool :=
  (tc.name = "run_command" && (env.parseRunCommand tc.arguments).isSome)
    || (tc.name = "manage_window" && (env.parseManageWindow tc.arguments).isSome)

/-- The suspension request produced for an out-of-band call carrying the
given accumulated messages; the `errMsg ("")` default is unreachable when
`isOutOfBand env tc = true`. -/
def oobRequest (env : Env) (tc : ToolCall) (messages : List ChatMessage) : InvokeResult :=
  match (if tc.name = "run_command" then env.parseRunCommand tc.arguments else none) with
  | some a => .runCommandMsg a.command a.args tc.id messages
  | none =>
    match (if tc.name = "manage_window" then env.parseManageWindow tc.arguments else none) with
    | some a => .windowControlMsg a.action a.target tc.id messages
    | none => .errMsg ("")

/-- The bounded agentic loop `for iteration := 0; iteration < 10; …`
(commands.go lines 104–216).  `replies i` is the endpoint's answer to the
`i`-th `CreateChatCompletion` call; `fuel` is the number of iterations
left.  The second component of the result counts the network calls made.
Run out of fuel → `"max iterations reached"`; transport error or empty
choice list → the corresponding `ErrMsg`; tool calls present → append the
assistant message, process the calls, suspend or iterate; otherwise append
the final assistant message and return `AiResponseMsg`. -/
def invokeLoop (env : Env) (replies : Nat → ApiResponse) :
    Nat → Nat → List ChatMessage → InvokeResult × Nat
  | 0, _, _ => (.errMsg ("max iterations reached - possible infinite loop"), 0)
  | fuel + 1, i, messages =>
    match replies i with
    | .apiError e => (.errMsg ("API error: " ++ e), 1)
    | .choices [] => (.errMsg ("no response from model"), 1)
    | .choices (c :: _) =>
      if c.toolCalls = [] then
        (.aiResponse c.content (messages ++ [finalAssistantMsg c.content]), 1)
      else
        match processCalls env c.toolCalls (messages ++ [assistantMsg c]) with
        | .inl r => (r, 1)
        | .inr messages' =>
          let next := invokeLoop env replies fuel (i + 1) messages'
          (next.1, next.2 + 1)

/-- `InvokeAI` proper: ten iterations over a copy of the model's history.
(The `PROVIDER_MODEL` guard that precedes the loop in the source returns an
`ErrMsg` before any network call and is outside the loop modelled here.) -/
def invokeAI (env : Env) (replies : Nat → ApiResponse) (history : List ChatMessage) :
    InvokeResult × Nat :=
  invokeLoop env replies 10 0 history

/-! ## UI state machine (`Update`, pkg/ui/update.go) -/

/-- The session phase `SessionState` (`StateIdle` / `StateThinking`). -/
inductive SessionState
  | idle
  | thinking
deriving DecidableEq, Repr

/-- The key events the `tea.KeyMsg` switch distinguishes; `other` stands
for every remaining key (typed characters etc.), which falls through to the
textarea. -/
inductive Key
  | ctrlC
  | esc
  | up
  | down
  | tab
  | enter (alt : Bool)
  | other (label : String)
deriving DecidableEq, Repr

/-- The `tea.Msg` variants the `Update` switch handles. -/
inductive TeaMsg
  | windowControl (action target toolCallID : String) (history : List ChatMessage)
  | windowSize (width height : Int)
  | key (k : Key)
  | aiResponse (content : String) (history : List ChatMessage)
  | aiComplete
  | errEvent (e : String)
  | runCommand (command : String) (args : List String) (toolCallID : String)
      (history : List ChatMessage)
  | processOutput (line : String)
  | processDone (err : Option String) (toolCallID : String)
deriving DecidableEq, Repr

/-- The `tea.Cmd`s `Update` returns that matter to the claims (component
ticks from the textarea/viewport/spinner are not modelled). -/
inductive TeaCmd
  | quit
  | invokeAgent
  | runProcess (command : String) (args : List String) (toolCallID : String)
  | waitForOutput
  | resize (width height : Int)
  | aiCompleteTrigger
deriving DecidableEq, Repr

/-- The mutable `Model` fields the claims are about.  `autocompleteIdx` is
a Go `int`, embedded as `Int`. -/
structure UIModel where
  state : SessionState
  history : List ChatMessage
  pendingQueue : List String
  processOutput : String
  showSidebar : Bool
  showAutocomplete : Bool
  autocompleteIdx : Int
  autocompleteList : List String
  files : List String
  inputValue : String
  width : Int
  height : Int
deriving DecidableEq, Repr

/-- Oracle for the external `bubbles` textarea: the input value after
`m.Input.Update(msg)` processes a message, as a function of the previous
value and the message. -/
structure UIEnv where
  inputUpdate : String → TeaMsg → String

/-- A user-role history message. -/
def userMsg (content : String) : ChatMessage :=
  { role := .user, content := content }

/-- An assistant-role history message with plain content. -/
def assistantTextMsg (content : String) : ChatMessage :=
  { role := .assistant, content := content }

/-- A tool-role history message carrying a tool-call id. -/
def toolMsg (content toolCallID : String) : ChatMessage :=
  { role := .tool, content := content, toolCallID := toolCallID }

/-- `resolveFileTags` (update.go lines 388–411): collect, in order, each
`@`-prefixed token whose remainder exactly matches a known file; if any
matched, append one hint suffix listing them. -/
def resolveFileTags (files : List String) (input : String) : String :=
  let referencedFiles :=
    (goFields input).filterMap fun word =>
      if goHasPrefix word ("@") then
        let path := goTrimPrefix word ("@")
        if files.contains path then some path else none
      else none
  if referencedFiles ≠ [] then
    input ++ "\n\n[User has referenced these files: " ++ goJoin referencedFiles (", ")
      ++ ". Use the read_file tool to view their contents.]"
  else input

/-- The candidate-collection loop of the autocomplete recompute
(update.go lines 299–307): keep files containing `search` (all files when
`search` is empty), breaking once 10 candidates are collected. -/
def appendCandidates (search : String) : List String → List String → List String
  | [], acc => acc
  | f :: rest, acc =>
    if search = "" || goContains f search then
      if 10 ≤ (acc ++ [f]).length then acc ++ [f]
      else appendCandidates search rest (acc ++ [f])
    else appendCandidates search rest acc

/-- The autocomplete candidate list for a known-file list and a partial. -/
def computeCandidates (files : List String) (search : String) : List String :=
  appendCandidates search files []

/-- The autocomplete recompute that runs after the textarea update
(update.go lines 278–322): active when the last whitespace-delimited token
starts with `@` and its remainder is not already an exact file match;
candidates are recomputed and the selection index is reset to 0 when it
fell out of range. -/
def recomputeAutocomplete (m : UIModel) : UIModel :=
  match (goFields m.inputValue).getLast? with
  | none => { m with showAutocomplete := false }
  | some lastWord =>
    if goHasPrefix lastWord ("@") then
      let search := goTrimPrefix lastWord ("@")
      if m.files.contains search then
        { m with showAutocomplete := false }
      else
        let list := computeCandidates m.files search
        if list ≠ [] then
          { m with autocompleteList := list
                   showAutocomplete := true
                   autocompleteIdx :=
                     if (list.length : Int) ≤ m.autocompleteIdx then 0
                     else m.autocompleteIdx }
        else
          { m with autocompleteList := list, showAutocomplete := false }
    else { m with showAutocomplete := false }

/-- The code path at the bottom of `Update` (update.go lines 276–332):
the textarea consumes the message, then autocomplete is recomputed. -/
def fallThrough (env : UIEnv) (m : UIModel) (msg : TeaMsg) (cmds : List TeaCmd) :
    UIModel × List TeaCmd :=
  let m := { m with inputValue := env.inputUpdate m.inputValue msg }
  (recomputeAutocomplete m, cmds)

/-- Replacing the last whitespace-delimited token of the input with
`"@" ++ selected` plus a trailing space, as the tab/enter autocomplete
confirmation does (update.go lines 114–124). -/
def confirmReplace (inputValue selected : String) : String :=
  let words := goFields inputValue
  if words ≠ [] then
    goJoin (words.dropLast ++ ["@" ++ selected]) " " ++ " "
  else inputValue

/-- The success/failure text of a process-completion tool result
(update.go lines 240–243). -/
def processDoneResult : Option String → String
  | none => "Process finished successfully."
  | some e => "Process exited with error: " ++ e

/-- The transcript block folded into the tool result when the sidebar was
not shown (update.go line 263). -/
def fullLog (processOutput result : String) : String :=
  "Process Output:\n```\n" ++ processOutput ++ "```\n" ++ result

/-- The `Update` state machine (update.go lines 17–333).  Faithful to the
source per message case; the `SaveSession` side effect on quit, viewport
scrolling and rendering are display-only and not modelled.  Go's panicking
list indexing `m.AutocompleteList[m.AutocompleteIdx]` is modelled with
`List.getD`; the autocomplete invariant proved below shows the default is
never reached. -/
def update (env : UIEnv) (m : UIModel) (msg : TeaMsg) : UIModel × List TeaCmd :=
  match msg with
  | .windowControl action _target toolCallID history =>
    let m :=
      if action = "open" then { m with showSidebar := true }
      else if action = "close" then { m with showSidebar := false }
      else m
    let result := "Window action '" ++ action ++ "' triggered."
    let m := { m with
      history := history ++ [toolMsg result toolCallID]
      state := .thinking }
    (m, [.resize m.width m.height, .invokeAgent])
  | .windowSize w h =>
    fallThrough env { m with width := w, height := h } msg []
  | .key k =>
    match k with
    | .ctrlC | .esc =>
      if m.showAutocomplete then ({ m with showAutocomplete := false }, [])
      else (m, [.quit])
    | .up =>
      if m.showAutocomplete && m.autocompleteIdx > 0 then
        ({ m with autocompleteIdx := m.autocompleteIdx - 1 }, [])
      else fallThrough env m msg []
    | .down =>
      if m.showAutocomplete && m.autocompleteIdx < (m.autocompleteList.length : Int) - 1 then
        ({ m with autocompleteIdx := m.autocompleteIdx + 1 }, [])
      else fallThrough env m msg []
    | .tab =>
      if m.showAutocomplete && m.autocompleteList ≠ [] then
        let selected := m.autocompleteList.getD m.autocompleteIdx.toNat ("")
        ({ m with inputValue := confirmReplace m.inputValue selected
                  showAutocomplete := false }, [])
      else fallThrough env m msg []
    | .enter alt =>
      if m.showAutocomplete && m.autocompleteList ≠ [] then
        let selected := m.autocompleteList.getD m.autocompleteIdx.toNat ("")
        ({ m with inputValue := confirmReplace m.inputValue selected
                  showAutocomplete := false }, [])
      else if !alt && m.inputValue ≠ "" then
        let finalContent := resolveFileTags m.files m.inputValue
        let m := { m with
          history := m.history ++ [userMsg finalContent]
          inputValue := "" }
        if m.state = .idle then
          ({ m with state := .thinking }, [.invokeAgent])
        else
          ({ m with pendingQueue := m.pendingQueue ++ [finalContent] }, [])
      else fallThrough env m msg []
    | .other _ => fallThrough env m msg []
  | .aiResponse _content history =>
    fallThrough env { m with history := history } msg [.aiCompleteTrigger]
  | .aiComplete =>
    let m := { m with state := .idle }
    match m.pendingQueue with
    | [] => fallThrough env m msg []
    | nextContent :: restQueue =>
      let m := { m with
        pendingQueue := restQueue
        history := m.history ++ [userMsg nextContent]
        state := .thinking }
      fallThrough env m msg [.invokeAgent]
  | .errEvent e =>
    let m := { m with
      history := m.history ++ [assistantTextMsg ("**Error:** " ++ e)]
      state := .idle }
    fallThrough env m msg []
  | .runCommand command args toolCallID history =>
    let m := { m with history := history, processOutput := "" }
    (m, [.runProcess command args toolCallID, .waitForOutput])
  | .processOutput line =>
    ({ m with processOutput := m.processOutput ++ line ++ "\n" }, [.waitForOutput])
  | .processDone err toolCallID =>
    let result := processDoneResult err
    let m := { m with
      history := m.history ++ [toolMsg result toolCallID] }
    let m :=
      if !m.showSidebar then
        { m with history := m.history.dropLast
            ++ [toolMsg (fullLog m.processOutput result) toolCallID] }
      else m
    let m := { m with processOutput := "", state := .thinking }
    (m, [.invokeAgent])

/-! ## Process runner (`RunProcessCmd`, pkg/ui/commands.go lines 35–69)

The runner's interaction with the operating system is abstracted as a
behaviour oracle: whether `cmd.Start()` fails, the lines each pipe
delivers, and the `cmd.Wait()` error.  The produced event trace keeps the
two pipes' line sequences separate because the source only guarantees
per-stream ordering (two independent scanner goroutines feed one
channel). -/

/-- Behaviour of the spawned command: `startErr` is the `cmd.Start()`
error, `exitErr` the `cmd.Wait()` error (`none` on clean exit). -/
structure ProcBehavior where
  startErr : Option String
  stdoutLines : List String
  stderrLines : List String
  exitErr : Option String
deriving DecidableEq, Repr

/-- The events one `RunProcessCmd` invocation produces: the stdout and
stderr line events and the single terminal completion event. -/
structure ProcRun where
  stdoutEvents : List String
  stderrEvents : List String
  doneErr : Option String
  doneToolCallID : String
deriving DecidableEq, Repr

/-- `RunProcessCmd`: a start failure short-circuits to the completion
event carrying the start error and produces no output events; otherwise
both pipes are scanned line-by-line and the completion event carries the
exit error.  (`ResolveBinary` only rewrites which executable is spawned
and is part of the behaviour oracle.) -/
def runProcessCmd (beh : ProcBehavior) (toolCallID : String) : ProcRun :=
  match beh.startErr with
  | some e =>
    { stdoutEvents := [], stderrEvents := [], doneErr := some e, doneToolCallID := toolCallID }
  | none =>
    { stdoutEvents := beh.stdoutLines, stderrEvents := beh.stderrLines
      doneErr := beh.exitErr, doneToolCallID := toolCallID }

/-! ## Concrete fixtures for counterexamples and witnesses -/

/-- Environment in which no out-of-band payload parses and every
synchronous tool succeeds with `"ok"`. -/
def syncEnv : Env :=
  { parseRunCommand := fun _ => none
    parseManageWindow := fun _ => none
    execTool := fun _ _ => .ok ("ok") }

/-- A synchronous tool call. -/
def readCall : ToolCall := { id := "call-1", name := "read_file", arguments := "empty-args" }

/-- A reply consisting only of tool calls (no content). -/
def toolOnlyReply : ApiResponse := .choices [{ content := "", toolCalls := [readCall] }]

/-- A plain content reply with no tool calls. -/
def contentReply : ApiResponse := .choices [{ content := "done", toolCalls := [] }]

/-- Ten consecutive tool-call-only replies, then a content reply. -/
def tenToolsThenContent : Nat → ApiResponse := fun i =>
  if i < 10 then toolOnlyReply else contentReply

/-- Nine consecutive tool-call-only replies, then a content reply. -/
def nineToolsThenContent : Nat → ApiResponse := fun i =>
  if i < 9 then toolOnlyReply else contentReply

/-- Textarea oracle that leaves the input unchanged. -/
def idUIEnv : UIEnv := ⟨fun s _ => s⟩

/-- A session that is Thinking with one history message, empty queue and
the text `"bar"` typed. -/
def thinkingBar : UIModel :=
  { state := .thinking
    history := [userMsg ("hi")]
    pendingQueue := []
    processOutput := ""
    showSidebar := false
    showAutocomplete := false
    autocompleteIdx := 0
    autocompleteList := []
    files := []
    inputValue := "bar"
    width := 80
    height := 24 }

/-- The three known files with the partial `@ma` typed. -/
def partialMa : UIModel :=
  { thinkingBar with state := .idle, files := ["main.go", "model.go", "styles.go"]
                     inputValue := "@ma" }

/-- Environment in which no payload parses and every tool call fails with
`"boom"`. -/
def errEnv : Env :=
  { parseRunCommand := fun _ => none
    parseManageWindow := fun _ => none
    execTool := fun _ _ => .error ("boom") }

/-- Environment in which every `run_command` payload parses. -/
def oobEnv : Env :=
  { parseRunCommand := fun _ => some { command := "go", args := ["build"] }
    parseManageWindow := fun _ => none
    execTool := fun _ _ => .ok ("ok") }

/-- A well-formed `run_command` call. -/
def runCall : ToolCall :=
  { id := "call-2", name := "run_command", arguments := "go-args" }

/-- A `run_command` call whose payload will not unmarshal under
`syncEnv`/`errEnv`. -/
def badRunCall : ToolCall :=
  { id := "call-3", name := "run_command", arguments := "not json" }

/-- A command whose spawn fails. -/
def spawnFailBeh : ProcBehavior :=
  { startErr := some ("exec: \"nope\": executable file not found")
    stdoutLines := [], stderrLines := [], exitErr := none }

/-- A command that starts, prints two lines and exits cleanly. -/
def cleanExitBeh : ProcBehavior :=
  { startErr := none, stdoutLines := ["a", "b"], stderrLines := [], exitErr := none }

/-- The model right after `InitialModel` (pkg/ui/model.go lines 58–108):
Idle, nothing shown, empty buffers; `history` is the initial system-prompt
history and `files` the scanned repository files. -/
def initialUIModel (files : List String) (history : List ChatMessage) : UIModel :=
  { state := .idle
    history := history
    pendingQueue := []
    processOutput := ""
    showSidebar := false
    showAutocomplete := false
    autocompleteIdx := 0
    autocompleteList := []
    files := files
    inputValue := ""
    width := 0
    height := 0 }

/-- The autocomplete well-formedness invariant: the selection index is
never negative, and whenever the overlay is active the candidate list is
non-empty and the index lies strictly below its length. -/
def AutoInv (m : UIModel) : Prop :=
  0 ≤ m.autocompleteIdx
    ∧ (m.showAutocomplete = true →
        m.autocompleteList ≠ [] ∧ m.autocompleteIdx < (m.autocompleteList.length : Int))

instance (m : UIModel) : Decidable (AutoInv m) := by
  unfold AutoInv; infer_instance

/-! ## Helper lemmas -/

/-- A call the loop will not suspend on is executed synchronously and the
loop moves to the remaining calls with the tool result appended. -/
theorem processCalls_sync (env : Env) (tc : ToolCall) (rest : List ToolCall)
    (msgs : List ChatMessage) (h : isOutOfBand env tc = false) :
    processCalls env (tc :: rest) msgs
      = processCalls env rest (msgs ++ [toolResultMsg env tc]) := by
  by_cases h1 : tc.name = "run_command"
  · have hp : env.parseRunCommand tc.arguments = none := by
      rcases ho : env.parseRunCommand tc.arguments with _ | a
      · rfl
      · exfalso; simp [isOutOfBand, h1, ho] at h
    simp [processCalls, h1, hp]
  · by_cases h2 : tc.name = "manage_window"
    · have hp : env.parseManageWindow tc.arguments = none := by
        rcases ho : env.parseManageWindow tc.arguments with _ | a
        · rfl
        · exfalso; simp [isOutOfBand, h1, h2, ho] at h
      simp [processCalls, h1, h2, hp]
    · simp [processCalls, h1, h2]

/-- An out-of-band call suspends immediately, carrying the messages
accumulated so far. -/
theorem processCalls_oob (env : Env) (tc : ToolCall) (rest : List ToolCall)
    (msgs : List ChatMessage) (h : isOutOfBand env tc = true) :
    processCalls env (tc :: rest) msgs = .inl (oobRequest env tc msgs) := by
  by_cases h1 : tc.name = "run_command"
  · rcases ho : env.parseRunCommand tc.arguments with _ | a
    · exfalso; simp [isOutOfBand, h1, ho] at h
    · simp [processCalls, oobRequest, h1, ho]
  · by_cases h2 : tc.name = "manage_window"
    · rcases ho : env.parseManageWindow tc.arguments with _ | a
      · exfalso; simp [isOutOfBand, h1, h2, ho] at h
      · simp [processCalls, oobRequest, h1, h2, ho]
    · exfalso; simp [isOutOfBand, h1, h2] at h

/-- The suspension request for an out-of-band call carries exactly the
message list it was built from. -/
theorem oobRequest_suspendedHistory (env : Env) (tc : ToolCall)
    (msgs : List ChatMessage) (h : isOutOfBand env tc = true) :
    (oobRequest env tc msgs).suspendedHistory = some msgs := by
  by_cases h1 : tc.name = "run_command"
  · rcases ho : env.parseRunCommand tc.arguments with _ | a
    · exfalso; simp [isOutOfBand, h1, ho] at h
    · simp [oobRequest, InvokeResult.suspendedHistory, h1, ho]
  · by_cases h2 : tc.name = "manage_window"
    · rcases ho : env.parseManageWindow tc.arguments with _ | a
      · exfalso; simp [isOutOfBand, h1, h2, ho] at h
      · simp [oobRequest, InvokeResult.suspendedHistory, h1, h2, ho]
    · exfalso; simp [isOutOfBand, h1, h2] at h

/-- A prefix of synchronously-handled calls only appends its tool results,
in order, before the rest of the calls are processed. -/
theorem processCalls_append (env : Env) (pre : List ToolCall) :
    ∀ (calls : List ToolCall) (msgs : List ChatMessage),
    (∀ tc' ∈ pre, isOutOfBand env tc' = false) →
    processCalls env (pre ++ calls) msgs
      = processCalls env calls (msgs ++ pre.map (toolResultMsg env)) := by
  induction pre with
  | nil => intro calls msgs _; simp
  | cons tc pre ih =>
    intro calls msgs h
    rw [List.cons_append,
      processCalls_sync env tc (pre ++ calls) msgs (h tc (List.mem_cons_self _ _)),
      ih calls (msgs ++ [toolResultMsg env tc]) fun tc' ht => h tc' (List.mem_cons_of_mem _ ht)]
    congr 1
    simp

/-- When no call suspends, processing only ever appends messages. -/
theorem processCalls_inr_extends (env : Env) :
    ∀ (calls : List ToolCall) (msgs res : List ChatMessage),
    processCalls env calls msgs = .inr res → ∃ extra, res = msgs ++ extra := by
  intro calls
  induction calls with
  | nil =>
    intro msgs res h
    simp only [processCalls, Sum.inr.injEq] at h
    exact ⟨[], by simp [h]⟩
  | cons tc rest ih =>
    intro msgs res h
    by_cases hb : isOutOfBand env tc = true
    · rw [processCalls_oob env tc rest msgs hb] at h
      simp at h
    · rw [processCalls_sync env tc rest msgs (by simpa using hb)] at h
      obtain ⟨extra, he⟩ := ih _ _ h
      exact ⟨toolResultMsg env tc :: extra, by simp [he]⟩

/-- The loop makes at most `fuel` network calls. -/
theorem invokeLoop_calls_le (env : Env) (replies : Nat → ApiResponse) :
    ∀ (fuel i : Nat) (msgs : List ChatMessage),
    (invokeLoop env replies fuel i msgs).2 ≤ fuel := by
  intro fuel
  induction fuel with
  | zero => intro i msgs; simp [invokeLoop]
  | succ fuel ih =>
    intro i msgs
    rw [invokeLoop]
    rcases hr : replies i with e | cs
    · simp
    · rcases cs with _ | ⟨c, restChoices⟩
      · simp
      · by_cases hc : c.toolCalls = []
        · simp [hc]
        · simp only [hc, if_neg hc]
          rcases hp : processCalls env c.toolCalls (msgs ++ [assistantMsg c]) with r | msgs'
          · simp
          · simpa using Nat.succ_le_succ (ih (i + 1) msgs')

/-- The autocomplete recompute leaves everything except the autocomplete
fields untouched. -/
theorem recompute_frame (m : UIModel) :
    (recomputeAutocomplete m).history = m.history
      ∧ (recomputeAutocomplete m).state = m.state
      ∧ (recomputeAutocomplete m).pendingQueue = m.pendingQueue
      ∧ (recomputeAutocomplete m).processOutput = m.processOutput
      ∧ (recomputeAutocomplete m).inputValue = m.inputValue := by
  unfold recomputeAutocomplete
  rcases (goFields m.inputValue).getLast? with _ | lw
  · exact ⟨rfl, rfl, rfl, rfl, rfl⟩
  · dsimp only
    split_ifs <;> exact ⟨rfl, rfl, rfl, rfl, rfl⟩

/-- The recompute re-establishes the autocomplete invariant from
non-negativity of the index alone. -/
theorem autoInv_recompute (m : UIModel) (h0 : 0 ≤ m.autocompleteIdx) :
    AutoInv (recomputeAutocomplete m) := by
  unfold recomputeAutocomplete AutoInv
  rcases (goFields m.inputValue).getLast? with _ | lw
  · exact ⟨h0, by simp⟩
  · dsimp only
    split_ifs with hpre hex hne hidx
    · exact ⟨h0, by simp⟩
    · have hlen : 0 < (computeCandidates m.files (goTrimPrefix lw ("@"))).length :=
        List.length_pos.mpr hne
      exact ⟨by norm_num, fun _ => ⟨hne, by dsimp only; omega⟩⟩
    · exact ⟨h0, fun _ => ⟨hne, by dsimp only; omega⟩⟩
    · exact ⟨h0, by simp⟩
    · exact ⟨h0, by simp⟩

/-! ## Claim theorems -/

/-- C1 (counterexample): with ten consecutive tool-call-only replies
followed by one content reply, `invoke` makes exactly 10 network calls and
returns the MaxIterations failure, not `FinalResponse` as claimed — the
tenth tool-call-only reply already exhausts the iteration budget and the
content reply is never fetched. -/
theorem c1_ten_tool_replies_then_content_fails :
    (invokeAI syncEnv tenToolsThenContent []).1.isFinalResponse = false
      ∧ (invokeAI syncEnv tenToolsThenContent []).1
          = .errMsg ("max iterations reached - possible infinite loop")
      ∧ (invokeAI syncEnv tenToolsThenContent []).2 = 10 := by decide

/-- C1 (amended): for every sequence of model replies `invoke` makes at
most 10 network calls (and terminates, being a total function of its
fuel); nine consecutive tool-call-only replies followed by one content
reply return `FinalResponse` at exactly 10 network calls, and ten
consecutive tool-call-only replies return `Failure(MaxIterations)` at
exactly 10 calls, never exceeding 10. -/
theorem c1_invoke_at_most_ten_calls :
    (∀ (env : Env) (replies : Nat → ApiResponse) (history : List ChatMessage),
        (invokeAI env replies history).2 ≤ 10)
      ∧ ((invokeAI syncEnv nineToolsThenContent []).1.isFinalResponse = true
          ∧ (invokeAI syncEnv nineToolsThenContent []).2 = 10)
      ∧ ((invokeAI syncEnv tenToolsThenContent []).1
            = .errMsg ("max iterations reached - possible infinite loop")
          ∧ (invokeAI syncEnv tenToolsThenContent []).2 = 10) := by
  refine ⟨fun env replies history => invokeLoop_calls_le env replies 10 0 history, ?_, ?_⟩
  · exact ⟨by decide, by decide⟩
  · exact ⟨by decide, by decide⟩

/-- C4: if the first reply contains zero tool calls, `invoke` returns
`FinalResponse` after one network call, with the input history plus
exactly one new assistant message. -/
theorem c4_zero_toolcalls_final (env : Env) (replies : Nat → ApiResponse)
    (history : List ChatMessage) (c : ChoiceMsg) (rest : List ChoiceMsg)
    (h0 : replies 0 = .choices (c :: rest)) (hno : c.toolCalls = []) :
    invokeAI env replies history
      = (.aiResponse c.content (history ++ [finalAssistantMsg c.content]), 1) := by
  show invokeLoop env replies (9 + 1) 0 history = _
  rw [invokeLoop, h0]
  simp [hno]

theorem c4_zero_toolcalls_final_witness :
    invokeAI syncEnv (fun _ => contentReply) []
      = (.aiResponse ("done") ([] ++ [finalAssistantMsg ("done")]), 1) :=
  c4_zero_toolcalls_final syncEnv (fun _ => contentReply) []
    { content := "done", toolCalls := [] } [] rfl rfl

/-- C5: within one reply, calls are processed in order; at the first
out-of-band call (a `run_command`/`manage_window` call whose payload
parses) the loop returns the suspension request immediately, carrying the
messages accumulated so far — the results of the earlier synchronous calls
— and every call after it is not processed this pass (the result is
independent of `post`). -/
theorem c5_first_oob_suspends (env : Env) (pre : List ToolCall) (tc : ToolCall)
    (post : List ToolCall) (msgs : List ChatMessage)
    (hpre : ∀ tc' ∈ pre, isOutOfBand env tc' = false)
    (hoob : isOutOfBand env tc = true) :
    processCalls env (pre ++ tc :: post) msgs
        = .inl (oobRequest env tc (msgs ++ pre.map (toolResultMsg env)))
      ∧ (oobRequest env tc (msgs ++ pre.map (toolResultMsg env))).suspendedHistory
          = some (msgs ++ pre.map (toolResultMsg env))
      ∧ ∀ post', processCalls env (pre ++ tc :: post') msgs
          = processCalls env (pre ++ tc :: post) msgs := by
  have hmain : ∀ post', processCalls env (pre ++ tc :: post') msgs
      = .inl (oobRequest env tc (msgs ++ pre.map (toolResultMsg env))) := by
    intro post'
    rw [processCalls_append env pre (tc :: post') msgs hpre,
      processCalls_oob env tc post' _ hoob]
  exact ⟨hmain post, oobRequest_suspendedHistory env tc _ hoob,
    fun post' => (hmain post').trans (hmain post).symm⟩

theorem c5_first_oob_suspends_witness :
    processCalls oobEnv ([readCall] ++ runCall :: [readCall]) []
      = .inl (oobRequest oobEnv runCall ([] ++ [readCall].map (toolResultMsg oobEnv))) :=
  (c5_first_oob_suspends oobEnv [readCall] runCall [readCall] []
    (by decide) (by decide)).1

/-- C7: a synchronous tool error never aborts the loop: the synthesized
tool-result message carries the non-empty text `"Error executing tool: …"`,
processing continues with the remaining calls, any non-suspending pass
keeps that message in the accumulated history, and the next network
request is made with a message list containing it. -/
theorem c7_sync_tool_error_recovered (env : Env) (tc : ToolCall) (e : String)
    (hsync : isOutOfBand env tc = false)
    (herr : env.execTool tc.name tc.arguments = .error e) :
    (toolResultMsg env tc).content = "Error executing tool: " ++ e
      ∧ (toolResultMsg env tc).content ≠ ""
      ∧ (∀ rest msgs, processCalls env (tc :: rest) msgs
          = processCalls env rest (msgs ++ [toolResultMsg env tc]))
      ∧ (∀ rest msgs res, processCalls env (tc :: rest) msgs = .inr res
          → toolResultMsg env tc ∈ res)
      ∧ ∀ (replies : Nat → ApiResponse) (fuel i : Nat) (msgs : List ChatMessage)
          (c : ChoiceMsg) (cs : List ChoiceMsg) (rest : List ToolCall)
          (res : List ChatMessage),
          replies i = .choices (c :: cs) → c.toolCalls = tc :: rest →
          processCalls env (tc :: rest) (msgs ++ [assistantMsg c]) = .inr res →
          invokeLoop env replies (fuel + 1) i msgs
            = ((invokeLoop env replies fuel (i + 1) res).1,
                (invokeLoop env replies fuel (i + 1) res).2 + 1) := by
  have hcontent : (toolResultMsg env tc).content = "Error executing tool: " ++ e := by
    simp [toolResultMsg, herr]
  have hmem : ∀ rest msgs res, processCalls env (tc :: rest) msgs = .inr res
      → toolResultMsg env tc ∈ res := by
    intro rest msgs res h
    rw [processCalls_sync env tc rest msgs hsync] at h
    obtain ⟨extra, he⟩ := processCalls_inr_extends env rest _ res h
    simp [he]
  refine ⟨hcontent, ?_, fun rest msgs => processCalls_sync env tc rest msgs hsync, hmem, ?_⟩
  · rw [hcontent]
    intro hcon
    rw [String.ext_iff] at hcon
    simp at hcon
  · intro replies fuel i msgs c cs rest res hri hc hpr
    rw [invokeLoop, hri]
    dsimp only
    simp [hc, hpr]

theorem c7_sync_tool_error_recovered_witness :
    (toolResultMsg errEnv readCall).content = "Error executing tool: " ++ "boom"
      ∧ processCalls errEnv [readCall] []
          = processCalls errEnv [] ([] ++ [toolResultMsg errEnv readCall]) := by
  have h := c7_sync_tool_error_recovered errEnv readCall ("boom") (by decide) rfl
  exact ⟨h.1, h.2.2.1 [] []⟩

/-- C8: a spawn failure produces no output events and exactly one
completion event carrying the start error tagged with the call id; a
successful start yields a completion event carrying the exit error (`none`
on clean exit) with the per-stream line events preserved in order. -/
theorem c8_process_runner_events (beh : ProcBehavior) (toolCallID : String) :
    (∀ e, beh.startErr = some e →
        runProcessCmd beh toolCallID
          = { stdoutEvents := [], stderrEvents := [], doneErr := some e
              doneToolCallID := toolCallID })
      ∧ (beh.startErr = none →
          (runProcessCmd beh toolCallID).doneErr = beh.exitErr
            ∧ (runProcessCmd beh toolCallID).doneToolCallID = toolCallID
            ∧ (runProcessCmd beh toolCallID).stdoutEvents = beh.stdoutLines
            ∧ (runProcessCmd beh toolCallID).stderrEvents = beh.stderrLines) := by
  constructor
  · intro e he; simp [runProcessCmd, he]
  · intro hn; simp [runProcessCmd, hn]

theorem c8_process_runner_events_witness :
    runProcessCmd spawnFailBeh ("call-9")
        = { stdoutEvents := [], stderrEvents := []
            doneErr := some ("exec: \"nope\": executable file not found")
            doneToolCallID := "call-9" }
      ∧ (runProcessCmd cleanExitBeh ("call-10")).doneErr = none := by
  refine ⟨(c8_process_runner_events spawnFailBeh ("call-9")).1 _ rfl, ?_⟩
  exact ((c8_process_runner_events cleanExitBeh ("call-10")).2 rfl).1

/-- C9: an out-of-band-named call whose payload fails to parse neither
aborts nor suspends the loop: it falls through to the synchronous
registry, whose outcome (result text or error text) is recorded as a
tool-result message tagged with the call id, and processing continues with
the remaining calls. -/
theorem c9_malformed_oob_falls_through (env : Env) (tc : ToolCall)
    (_hname : tc.name = "run_command" ∨ tc.name = "manage_window")
    (hbad : isOutOfBand env tc = false) :
    (∀ rest msgs, processCalls env (tc :: rest) msgs
        = processCalls env rest (msgs ++ [toolResultMsg env tc]))
      ∧ (toolResultMsg env tc).role = .tool
      ∧ (toolResultMsg env tc).toolCallID = tc.id
      ∧ (toolResultMsg env tc).content
          = (match env.execTool tc.name tc.arguments with
              | .ok r => r
              | .error e => "Error executing tool: " ++ e) := by
  exact ⟨fun rest msgs => processCalls_sync env tc rest msgs hbad, rfl, rfl, rfl⟩

theorem c9_malformed_oob_falls_through_witness :
    processCalls syncEnv [badRunCall] []
      = processCalls syncEnv [] ([] ++ [toolResultMsg syncEnv badRunCall]) :=
  (c9_malformed_oob_falls_through syncEnv badRunCall (Or.inl rfl) (by decide)).1 [] []

/-- Projection of `recompute_frame`: history is untouched. -/
theorem recompute_history (m : UIModel) :
    (recomputeAutocomplete m).history = m.history := (recompute_frame m).1

/-- Projection of `recompute_frame`: the phase is untouched. -/
theorem recompute_state (m : UIModel) :
    (recomputeAutocomplete m).state = m.state := (recompute_frame m).2.1

/-- Projection of `recompute_frame`: the queue is untouched. -/
theorem recompute_pendingQueue (m : UIModel) :
    (recomputeAutocomplete m).pendingQueue = m.pendingQueue := (recompute_frame m).2.2.1

/-- C2 (counterexample): submitting `"bar"` while Thinking enqueues it and
keeps the phase, as claimed — but the same transition also appends the
message to the conversation history, so `history` is modified by the
submission, contradicting the claim's frame condition. -/
theorem c2_thinking_submit_mutates_history :
    (update idUIEnv thinkingBar (.key (.enter false))).1.pendingQueue = ["bar"]
      ∧ (update idUIEnv thinkingBar (.key (.enter false))).1.state = .thinking
      ∧ (update idUIEnv thinkingBar (.key (.enter false))).1.history
          = [userMsg ("hi"), userMsg ("bar")]
      ∧ (update idUIEnv thinkingBar (.key (.enter false))).1.history
          ≠ thinkingBar.history := by
  decide

/-- C2 (amended): a non-empty submission while Thinking appends the tagged
input both to `PendingQueue` and to `History`, keeps the phase Thinking
and dispatches nothing; a submission while Idle enters history (and not
the queue), sets the phase to Thinking and invokes the agent loop; on a
completion event with a non-empty queue the head is dequeued and appended
to history again, with the phase back to Thinking and the loop invoked. -/
theorem c2_submit_enqueues_and_appends_history (env : UIEnv) (m : UIModel)
    (hac : ¬(m.showAutocomplete = true ∧ m.autocompleteList ≠ []))
    (hne : m.inputValue ≠ "") :
    (m.state = .thinking →
        update env m (.key (.enter false))
          = ({ m with
                history := m.history ++ [userMsg (resolveFileTags m.files m.inputValue)]
                pendingQueue := m.pendingQueue ++ [resolveFileTags m.files m.inputValue]
                inputValue := "" }, []))
      ∧ (m.state = .idle →
          update env m (.key (.enter false))
            = ({ m with
                  history := m.history ++ [userMsg (resolveFileTags m.files m.inputValue)]
                  inputValue := ""
                  state := .thinking }, [.invokeAgent]))
      ∧ ∀ q rest, m.pendingQueue = q :: rest →
          (update env m .aiComplete).1.history = m.history ++ [userMsg q]
            ∧ (update env m .aiComplete).1.state = .thinking
            ∧ (update env m .aiComplete).1.pendingQueue = rest
            ∧ (update env m .aiComplete).2 = [.invokeAgent] := by
  have hcond : (m.showAutocomplete && decide (m.autocompleteList ≠ [])) = false := by
    rcases hs : m.showAutocomplete
    · simp
    · simp only [Bool.true_and, decide_eq_false_iff_not, Decidable.not_not]
      by_contra hl
      exact hac ⟨hs, hl⟩
  refine ⟨?_, ?_, ?_⟩
  · intro hst
    simp [update, hcond, hne, hst]
    intro hs
    by_contra hl
    exact hac ⟨hs, hl⟩
  · intro hst
    simp [update, hcond, hne, hst]
    intro hs
    by_contra hl
    exact hac ⟨hs, hl⟩
  · intro q rest hq
    simp [update, hq, fallThrough, recompute_history, recompute_state, recompute_pendingQueue]

theorem c2_submit_enqueues_and_appends_history_witness :
    update idUIEnv thinkingBar (.key (.enter false))
      = ({ thinkingBar with
            history := thinkingBar.history
              ++ [userMsg (resolveFileTags thinkingBar.files thinkingBar.inputValue)]
            pendingQueue := thinkingBar.pendingQueue
              ++ [resolveFileTags thinkingBar.files thinkingBar.inputValue]
            inputValue := "" }, []) :=
  (c2_submit_enqueues_and_appends_history idUIEnv thinkingBar (by decide) (by decide)).1 rfl

/-- C3 (counterexample): with files `["main.go","model.go","styles.go"]`
and the partial token `@ma`, the recomputed candidate list is
`["main.go"]`, not `["main.go","model.go"]` as claimed — `"model.go"` does
not contain the substring `"ma"`. -/
theorem c3_partial_ma_counterexample :
    (recomputeAutocomplete partialMa).autocompleteList ≠ ["main.go", "model.go"]
      ∧ (recomputeAutocomplete partialMa).autocompleteList = ["main.go"]
      ∧ (recomputeAutocomplete partialMa).showAutocomplete = true := by
  decide

/-- The candidate loop never grows the accumulator past 10 entries. -/
theorem appendCandidates_length_le (search : String) :
    ∀ (files acc : List String), acc.length < 10 →
      (appendCandidates search files acc).length ≤ 10 := by
  intro files
  induction files with
  | nil => intro acc h; simpa [appendCandidates] using Nat.le_of_lt h
  | cons f rest ih =>
    intro acc h
    rw [appendCandidates]
    split_ifs with hcond hlen
    · simp
      omega
    · exact ih (acc ++ [f]) (by simp at hlen ⊢; omega)
    · exact ih acc h

/-- The candidate loop appends a subsequence of the scanned files, in the
master list's order. -/
theorem appendCandidates_sublist (search : String) :
    ∀ (files acc : List String),
      ∃ s, appendCandidates search files acc = acc ++ s ∧ s.Sublist files := by
  intro files
  induction files with
  | nil => intro acc; exact ⟨[], by simp [appendCandidates]⟩
  | cons f rest ih =>
    intro acc
    rw [appendCandidates]
    split_ifs with hcond hlen
    · exact ⟨[f], rfl, by simp⟩
    · obtain ⟨s, hs, hsub⟩ := ih (acc ++ [f])
      exact ⟨f :: s, by simp [hs], List.Sublist.cons₂ f hsub⟩
    · obtain ⟨s, hs, hsub⟩ := ih acc
      exact ⟨s, hs, hsub.cons f⟩

/-- C3 (amended): with the three known files and partial `ma` the
recomputed candidate list is `["main.go"]` (substring matching), the
overlay is shown, and in general the candidate list never exceeds 10
entries and is always an order-preserving subsequence of the master file
list. -/
theorem c3_substring_candidates_capped_ordered :
    ((recomputeAutocomplete partialMa).autocompleteList = ["main.go"]
        ∧ (recomputeAutocomplete partialMa).showAutocomplete = true)
      ∧ (∀ (files : List String) (search : String),
          (computeCandidates files search).length ≤ 10)
      ∧ ∀ (files : List String) (search : String),
          (computeCandidates files search).Sublist files := by
  refine ⟨by decide, ?_, ?_⟩
  · intro files search
    exact appendCandidates_length_le search files [] (by norm_num)
  · intro files search
    obtain ⟨s, hs, hsub⟩ := appendCandidates_sublist search files []
    simpa [computeCandidates, hs] using hsub

/-- C6: on every process completion the output buffer is cleared whether
or not the sidebar was shown; exactly one tool-result message is appended
to history, with the full buffer folded into its content exactly when the
sidebar was not shown; the phase is Thinking and the agent loop is invoked
again. -/
theorem c6_process_done_folds_and_clears (env : UIEnv) (m : UIModel)
    (err : Option String) (id : String) :
    (update env m (.processDone err id)).1.processOutput = ""
      ∧ (update env m (.processDone err id)).1.state = .thinking
      ∧ (update env m (.processDone err id)).2 = [.invokeAgent]
      ∧ (update env m (.processDone err id)).1.history
          = m.history
            ++ [toolMsg
                  (if m.showSidebar then processDoneResult err
                    else fullLog m.processOutput (processDoneResult err)) id] := by
  by_cases hs : m.showSidebar
  · simp [update, hs]
  · simp [update, hs]

/-- C10: the autocomplete invariant — non-negative selection index, and an
active overlay implies a non-empty candidate list with the index in
bounds — holds initially and is preserved by every `Update` transition, so
confirmation and navigation never index outside the candidate list. -/
theorem c10_autocomplete_invariant (env : UIEnv) (m : UIModel) (msg : TeaMsg)
    (h : AutoInv m) :
    AutoInv (update env m msg).1
      ∧ (m.showAutocomplete = true →
          m.autocompleteIdx.toNat < m.autocompleteList.length)
      ∧ ∀ (files : List String) (history : List ChatMessage),
          AutoInv (initialUIModel files history) := by
  obtain ⟨h0, hinv⟩ := h
  refine ⟨?_, ?_, fun files history => ⟨by simp [initialUIModel], by simp [initialUIModel]⟩⟩
  · cases msg with
    | windowControl a t id hist =>
      simp only [update]
      split_ifs <;> exact ⟨h0, hinv⟩
    | windowSize w hgt => exact autoInv_recompute _ h0
    | key k =>
      cases k with
      | ctrlC =>
        simp only [update]
        split_ifs with hsac
        · exact ⟨h0, fun hh => absurd hh (by simp)⟩
        · exact ⟨h0, hinv⟩
      | esc =>
        simp only [update]
        split_ifs with hsac
        · exact ⟨h0, fun hh => absurd hh (by simp)⟩
        · exact ⟨h0, hinv⟩
      | up =>
        simp only [update]
        split_ifs with hcond
        · simp only [Bool.and_eq_true, decide_eq_true_eq] at hcond
          obtain ⟨hs, hpos⟩ := hcond
          obtain ⟨hne, hlt⟩ := hinv hs
          exact ⟨show (0 : Int) ≤ m.autocompleteIdx - 1 by omega,
            fun _ => ⟨hne,
              show m.autocompleteIdx - 1 < (m.autocompleteList.length : Int) by omega⟩⟩
        · exact autoInv_recompute _ h0
      | down =>
        simp only [update]
        split_ifs with hcond
        · simp only [Bool.and_eq_true, decide_eq_true_eq] at hcond
          obtain ⟨hs, hlt1⟩ := hcond
          obtain ⟨hne, hlt⟩ := hinv hs
          exact ⟨show (0 : Int) ≤ m.autocompleteIdx + 1 by omega,
            fun _ => ⟨hne,
              show m.autocompleteIdx + 1 < (m.autocompleteList.length : Int) by omega⟩⟩
        · exact autoInv_recompute _ h0
      | tab =>
        simp only [update]
        split_ifs with hcond
        · exact ⟨h0, fun hh => absurd hh (by simp)⟩
        · exact autoInv_recompute _ h0
      | enter alt =>
        simp only [update]
        split_ifs with h1 h2 h3
        · exact ⟨h0, fun hh => absurd hh (by simp)⟩
        · exact ⟨h0, hinv⟩
        · exact ⟨h0, hinv⟩
        · exact autoInv_recompute _ h0
      | other lbl => exact autoInv_recompute _ h0
    | aiResponse content hist => exact autoInv_recompute _ h0
    | aiComplete =>
      rcases hq : m.pendingQueue with _ | ⟨q, rest⟩ <;>
        · simp only [update, hq]
          exact autoInv_recompute _ h0
    | errEvent e => exact autoInv_recompute _ h0
    | runCommand command args id hist => exact ⟨h0, hinv⟩
    | processOutput line => exact ⟨h0, hinv⟩
    | processDone err id =>
      simp only [update]
      split_ifs <;> exact ⟨h0, hinv⟩
  · intro hs
    have := hinv hs
    omega

theorem c10_autocomplete_invariant_witness :
    AutoInv (update idUIEnv thinkingBar .aiComplete).1 :=
  (c10_autocomplete_invariant idUIEnv thinkingBar .aiComplete (by decide)).1
